import Mathlib

set_option maxRecDepth 4000

/-!
Shallow embedding of `src/middlewared/middlewared/plugins/backup.py`
(the FreeNAS cloud-backup plugin) and verification of its specification.

Bytes are modelled as natural numbers and byte streams as lists of bytes.
The boto3 S3 client, the datastore, the temporary-file machinery and the
rclone subprocess are external collaborators; each call the plugin makes to
them is recorded as an explicit event so that ordering and absence of calls
can be stated.  Fallible collaborator calls are modelled with `Except` /
`Option` results supplied as parameters.
-/

/-- `CHUNK_SIZE = 5 * 1024 * 1024` from the top of the source file. -/
def CHUNK_SIZE : Nat := 5 * 1024 * 1024

/-- Reading a stream `s` in reads of `C` bytes until a read returns the empty
bytestring: the sequence of chunks produced.  (`C = 0` yields no chunks,
matching a zero-byte read returning the empty bytestring at once.)  This is
the read loop shared by `BackupS3Service.put` (reads of the source file) and
`BackupS3Service.get` (reads of the object body). -/
def chunks (C : Nat) (s : List Nat) : List (List Nat) :=
  if hC : C = 0 then []
  else if h : s = [] then []
  else s.take C :: chunks C (s.drop C)
termination_by s.length
decreasing_by
  simp only [List.length_drop]
  have h1 : 0 < s.length := List.length_pos.mpr h
  omega

/-- Calls issued by `put` / `get` against the S3 client, together with the
reads of the source stream (`readSrc n` is a read returning `n` bytes).  The
vocabulary includes `abortMultipart` even though the code never issues it, so
that its absence from every trace is a statement, not a tautology of the
type. -/
inductive S3Event where
  | createMultipart (bucket key : String)
  | uploadPart (bucket key : String) (partNumber contentLength : Nat) (body : List Nat)
  | completeMultipart (bucket key : String) (parts : List (String × Nat))
  | abortMultipart (bucket key : String)
  | getObject (bucket key : String)
  | readSrc (n : Nat)
deriving DecidableEq, Repr

/-- The fields of a `tasks.cloudsync` record used by the plugin. -/
structure BackupAttributes where
  bucket : String
  folder : Option String
  region : Option String
deriving DecidableEq, Repr

structure BackupTask where
  id : Nat
  path : String
  credentialId : Nat
  attributes : BackupAttributes
deriving DecidableEq, Repr

/-- The fields of a `system.cloudcredentials` record used by the plugin. -/
structure CloudCredential where
  id : Nat
  provider : String
  access_key : String
  secret_key : String
deriving DecidableEq, Repr

/-- Python `x or ''` on an optional string (used for `folder` and `region`). -/
def pyOrEmpty : Option String → String
  | none => ""
  | some s => if s = "" then "" else s

/-- `os.path.join a b` for two POSIX components. -/
def osPathJoin (a b : String) : String :=
  if b.startsWith "/" then b
  else if a = "" then b
  else if a.endsWith "/" then a ++ b
  else a ++ "/" ++ b

/-- The key both `put` and `get` compute:
`os.path.join(backup['attributes']['folder'] or '', filename)`. -/
def s3Key (backup : BackupTask) (filename : String) : String :=
  osPathJoin (pyOrEmpty backup.attributes.folder) filename

/-- The `while True` loop of `BackupS3Service.put`: read `CHUNK_SIZE` bytes,
stop on an empty read, upload each chunk as one part numbered by `idx`
(1-based at the entry call), declaring `ContentLength = CHUNK_SIZE`
(a constant, regardless of the chunk's actual length), and append the
returned `(ETag, PartNumber)` pair to `parts`.  `upload` models
`client.upload_part`, which returns an ETag or fails. -/
def putLoop (bucket key : String) (upload : Nat → List Nat → Except String String)
    (s : List Nat) (idx : Nat) (parts : List (String × Nat)) :
    List S3Event × Except String (List (String × Nat)) :=
  if h : s = [] then ([S3Event.readSrc 0], Except.ok parts)
  else
    match upload idx (s.take CHUNK_SIZE) with
    | Except.error e =>
        ([S3Event.readSrc (s.take CHUNK_SIZE).length,
          S3Event.uploadPart bucket key idx CHUNK_SIZE (s.take CHUNK_SIZE)],
         Except.error e)
    | Except.ok tag =>
        let rest := putLoop bucket key upload (s.drop CHUNK_SIZE) (idx + 1)
          (parts ++ [(tag, idx)])
        (S3Event.readSrc (s.take CHUNK_SIZE).length ::
           S3Event.uploadPart bucket key idx CHUNK_SIZE (s.take CHUNK_SIZE) :: rest.1,
         rest.2)
termination_by s.length
decreasing_by
  simp only [List.length_drop]
  have h1 : 0 < s.length := List.length_pos.mpr h
  simp only [CHUNK_SIZE]
  omega

/-- `BackupS3Service.put`: compute the key from the task folder and the
filename, open a multipart upload, run the read/upload loop starting at part
number 1 with an empty part list, and on success complete the upload with the
accumulated part list.  A chunk failure propagates unchanged; no completion
and no abort is issued then. -/
def put (backup : BackupTask) (filename : String)
    (upload : Nat → List Nat → Except String String) (s : List Nat) :
    List S3Event × Except String Unit :=
  let key := s3Key backup filename
  let bucket := backup.attributes.bucket
  let r := putLoop bucket key upload s 1 []
  match r.2 with
  | Except.error e => (S3Event.createMultipart bucket key :: r.1, Except.error e)
  | Except.ok parts =>
      (S3Event.createMultipart bucket key :: r.1 ++
         [S3Event.completeMultipart bucket key parts], Except.ok ())

/-- `BackupS3Service.get`: compute the key the same way as `put`, request the
object, and write its body to the destination in `CHUNK_SIZE` reads until a
zero-length read.  `store` models the contents of the object store; the
result on success is the list of chunks written to the destination stream, in
order. -/
def BackupS3Service.get (backup : BackupTask) (filename : String)
    (store : String → String → Option (List Nat)) :
    List S3Event × Except String (List (List Nat)) :=
  let key := s3Key backup filename
  let bucket := backup.attributes.bucket
  match store bucket key with
  | none => ([S3Event.getObject bucket key], Except.error "NoSuchKey")
  | some body => ([S3Event.getObject bucket key], Except.ok (chunks CHUNK_SIZE body))

/-- The `(partNumber, body)` pairs of the `uploadPart` events of a trace, in
trace order. -/
def uploadsOf (evs : List S3Event) : List (Nat × List Nat) :=
  evs.filterMap fun e =>
    match e with
    | S3Event.uploadPart _ _ pn _ body => some (pn, body)
    | _ => none

/-- The bodies of the uploaded parts of a trace, in trace order. -/
def bodiesOf (evs : List S3Event) : List (List Nat) :=
  (uploadsOf evs).map Prod.snd

def isUploadFor (bucket key : String) (pn : Nat) : S3Event → Option (List Nat)
  | S3Event.uploadPart b k n _ body =>
      if b = bucket ∧ k = key ∧ n = pn then some body else none
  | _ => none

/-- The body the store holds for part `pn` of `bucket`/`key` after the trace
`evs`: the body of the last matching `uploadPart` (S3 semantics: re-uploading
a part number overwrites it). -/
def partBody (evs : List S3Event) (bucket key : String) (pn : Nat) :
    Option (List Nat) :=
  evs.reverse.findSome? (isUploadFor bucket key pn)

/-- The part list presented by the (first) completion call for `bucket`/`key`
in the trace, if any. -/
def completionOf (evs : List S3Event) (bucket key : String) :
    Option (List (String × Nat)) :=
  evs.findSome? fun e =>
    match e with
    | S3Event.completeMultipart b k parts =>
        if b = bucket ∧ k = key then some parts else none
    | _ => none

/-- The object the store holds at `bucket`/`key` after the trace: the
concatenation, in the order listed by the completion call, of the bodies of
the parts it names. -/
def storedObject (evs : List S3Event) (bucket key : String) :
    Option (List Nat) :=
  (completionOf evs bucket key).bind fun parts =>
    (parts.mapM fun p => partBody evs bucket key p.2).map List.flatten

/-! ### The tree sync (`BackupService.sync` and `BackupS3Service.sync`) -/

/-- Side effects of the sync path: datastore reads, the temporary rclone
config file (its creation, `chmod`, the write of the config text, its
deletion on leaving the `with` block) and the rclone subprocess. -/
inductive Effect where
  | datastoreQuery (table : String) (recordId : Nat)
  | tempCreate (mode : Nat)
  | chmod (mode : Nat)
  | fileWrite (content : String)
  | spawn (args : List String)
  | tempDelete
deriving DecidableEq, Repr

/-- The errors raised on the sync path: `ValueError("Unknown id")`,
`ValueError("Backup credential not found.")`,
`NotImplementedError('Unsupported provider: ...')` and
`ValueError('rclone failed: ...')`. -/
inductive SyncError where
  | unknownId
  | credentialNotFound
  | unsupportedProvider (provider : String)
  | syncFailed (message : String)
deriving DecidableEq, Repr

/-- The rclone config text written by `BackupS3Service.sync` (the format
string of the source, with the three values substituted). -/
def s3ConfigContent (access_key secret_key region : String) : String :=
  "[remote]\ntype = s3\nenv_auth = false\naccess_key_id = " ++ access_key ++
    "\nsecret_access_key = " ++ secret_key ++ "\nregion = " ++ region ++ "\n"

/-- The rclone command line built by `BackupS3Service.sync`. -/
def rcloneArgs (configPath path bucket : String) : List String :=
  ["/usr/local/bin/rclone", "--config", configPath, "--stats", "1s", "sync",
   path, "remote:" ++ bucket]

/-- `BackupS3Service.sync`: create a temporary file
(`tempfile.NamedTemporaryFile`, whose `mkstemp` creates the file with mode
`0o600`, readable and writable only by the owner), `chmod` it to `0o600`,
write the credential-bearing config text, run rclone, and delete the file on
leaving the `with` block (also when the error below is raised inside it).
The call fails with the captured stderr if the process exit code is nonzero
and returns `true` otherwise.  `tmpname`, `returncode` and `stderr` are the
externally determined temporary file name and process outcome. -/
def backup_s3_sync (backup : BackupTask) (credential : CloudCredential)
    (tmpname : String) (returncode : Int) (stderr : String) :
    List Effect × Except SyncError Bool :=
  ([Effect.tempCreate 0o600,
    Effect.chmod 0o600,
    Effect.fileWrite (s3ConfigContent credential.access_key credential.secret_key
      (pyOrEmpty backup.attributes.region)),
    Effect.spawn (rcloneArgs tmpname backup.path backup.attributes.bucket),
    Effect.tempDelete],
   if returncode ≠ 0 then
     Except.error (SyncError.syncFailed ("rclone failed: " ++ stderr))
   else Except.ok true)

/-- `BackupService.sync`: look up the task record, then its credential record
(`datastore.query`, a read), fail with the respective error when either is
missing, dispatch to `backup.s3.sync` when the provider is `'AMAZON'`, and
fail with `NotImplementedError` naming the provider otherwise.  `tasks` and
`creds` model the datastore contents. -/
def backup_sync (tasks : Nat → Option BackupTask)
    (creds : Nat → Option CloudCredential) (tmpname : String)
    (returncode : Int) (stderr : String) (i : Nat) :
    List Effect × Except SyncError Bool :=
  match tasks i with
  | none => ([Effect.datastoreQuery "tasks.cloudsync" i], Except.error SyncError.unknownId)
  | some backup =>
      match creds backup.credentialId with
      | none =>
          ([Effect.datastoreQuery "tasks.cloudsync" i,
            Effect.datastoreQuery "system.cloudcredentials" backup.credentialId],
           Except.error SyncError.credentialNotFound)
      | some credential =>
          if credential.provider = "AMAZON" then
            let r := backup_s3_sync backup credential tmpname returncode stderr
            (Effect.datastoreQuery "tasks.cloudsync" i ::
               Effect.datastoreQuery "system.cloudcredentials" backup.credentialId ::
               r.1, r.2)
          else
            ([Effect.datastoreQuery "tasks.cloudsync" i,
              Effect.datastoreQuery "system.cloudcredentials" backup.credentialId],
             Except.error (SyncError.unsupportedProvider credential.provider))

/-- The file mode in effect after an effect happens (creation and `chmod` set
it; nothing else touches it). -/
def stepMode (mode : Nat) : Effect → Nat
  | Effect.tempCreate m => m
  | Effect.chmod m => m
  | _ => mode

/-- Group- or world-readable: one of the `0o044` permission bits is set. -/
def groupOrWorldReadable (mode : Nat) : Bool :=
  mode &&& 0o044 != 0

/-- The file mode is never group- or world-readable at any point of the
trace (checked after every event, starting from `mode`). -/
def secureModes (mode : Nat) : List Effect → Bool
  | [] => true
  | e :: rest =>
      !groupOrWorldReadable (stepMode mode e) && secureModes (stepMode mode e) rest

/-- Every write of file content happens while the file mode is exactly
`0o600` (owner-only read/write). -/
def ownerOnlyBeforeWrites (mode : Nat) : List Effect → Bool
  | [] => true
  | Effect.fileWrite _ :: rest => mode == 0o600 && ownerOnlyBeforeWrites mode rest
  | e :: rest => ownerOnlyBeforeWrites (stepMode mode e) rest

/-! ### Progress parsing (`check_progress`) -/

/-- Python `str.isdigit` on ASCII content: true iff the string is nonempty
and every character is a decimal digit. -/
def pyIsDigit (s : String) : Bool :=
  !s.toList.isEmpty && s.toList.all Char.isDigit

/-- Python `str.strip`: remove leading and trailing whitespace. -/
def pyStrip (s : String) : String :=
  String.mk
    (((s.toList.dropWhile Char.isWhitespace).reverse.dropWhile Char.isWhitespace).reverse)

def transferredMarker : List Char := "Transferred:".toList

/-- `re.compile(r'Transferred:\s*?(.+)$', re.S).search(line)`: at the
leftmost occurrence of `Transferred:` that is followed by at least one
character, the lazy `\s*?` matches zero characters and the greedy `(.+)`
(where `.` also matches newlines, because of `re.S`) captures the entire
remainder of the line; `$` then matches at the end.  Returns group 1, or
`none` when the pattern does not match anywhere. -/
def searchTransferred : List Char → Option (List Char)
  | [] => none
  | c :: cs =>
      if transferredMarker.isPrefixOf (c :: cs) then
        if (c :: cs).drop transferredMarker.length = [] then searchTransferred cs
        else some ((c :: cs).drop transferredMarker.length)
      else searchTransferred cs

/-- One iteration of `check_progress` on a line read from rclone's stderr:
the progress message passed to `job.set_progress`, if any.  The captured
group is stripped and published only when it is not purely numeric. -/
def check_progress_line (line : String) : Option String :=
  match searchTransferred line.toList with
  | none => none
  | some grp =>
      let transferred := pyStrip (String.mk grp)
      if pyIsDigit transferred then none else some transferred

/-! ### Basic facts about `chunks` -/

theorem chunks_nil : chunks CHUNK_SIZE [] = [] := by
  rw [chunks]
  simp

theorem chunks_cons_eq (s : List Nat) (h : s ≠ []) :
    chunks CHUNK_SIZE s = s.take CHUNK_SIZE :: chunks CHUNK_SIZE (s.drop CHUNK_SIZE) := by
  rw [chunks]
  simp [h, CHUNK_SIZE]

/-- Induction along the read loop: a property holds of every stream if it
holds of the empty stream and is propagated from `s.drop CHUNK_SIZE` to `s`
for nonempty `s`. -/
theorem chunk_induction (P : List Nat → Prop) (base : P [])
    (step : ∀ s : List Nat, s ≠ [] → P (s.drop CHUNK_SIZE) → P s) :
    ∀ s, P s := by
  intro s
  generalize hn : s.length = n
  induction n using Nat.strong_induction_on generalizing s with
  | _ n ih =>
    by_cases h : s = []
    · subst h; exact base
    · subst hn
      refine step s h (ih (s.drop CHUNK_SIZE).length ?_ _ rfl)
      have h1 : 0 < s.length := List.length_pos.mpr h
      simp only [List.length_drop, CHUNK_SIZE] at *
      omega

theorem chunks_eq_nil_iff (s : List Nat) : chunks CHUNK_SIZE s = [] ↔ s = [] := by
  constructor
  · intro h
    by_contra hs
    rw [chunks_cons_eq s hs] at h
    exact List.cons_ne_nil _ _ h
  · intro h
    subst h
    exact chunks_nil

theorem chunks_length (s : List Nat) :
    (chunks CHUNK_SIZE s).length = (s.length + CHUNK_SIZE - 1) / CHUNK_SIZE := by
  induction s using chunk_induction with
  | base =>
    rw [chunks_nil]
    simp only [List.length_nil, CHUNK_SIZE]
  | step s h ih =>
    rw [chunks_cons_eq s h, List.length_cons, ih, List.length_drop]
    have h1 : 0 < s.length := List.length_pos.mpr h
    simp only [CHUNK_SIZE] at *
    omega

theorem chunks_flatten (s : List Nat) : (chunks CHUNK_SIZE s).flatten = s := by
  induction s using chunk_induction with
  | base => simp [chunks_nil]
  | step s h ih =>
    rw [chunks_cons_eq s h, List.flatten_cons, ih, List.take_append_drop]

theorem chunks_dropLast_length (s : List Nat) :
    ∀ c ∈ (chunks CHUNK_SIZE s).dropLast, c.length = CHUNK_SIZE := by
  induction s using chunk_induction with
  | base => simp [chunks_nil]
  | step s h ih =>
    rw [chunks_cons_eq s h]
    by_cases hd : s.drop CHUNK_SIZE = []
    · rw [hd, chunks_nil]
      simp
    · rw [List.dropLast_cons_of_ne_nil ((chunks_eq_nil_iff _).not.mpr hd)]
      intro c hc
      rcases List.mem_cons.mp hc with hc | hc
      · subst hc
        have h2 : CHUNK_SIZE < s.length := by
          have h3 := List.length_pos.mpr hd
          simp only [List.length_drop] at h3
          omega
        simp [List.length_take]
        omega
      · exact ih c hc

theorem chunks_getLast_length (s : List Nat) (h : s ≠ []) :
    ∃ c, (chunks CHUNK_SIZE s).getLast? = some c ∧
      c.length = if s.length % CHUNK_SIZE = 0 then CHUNK_SIZE else s.length % CHUNK_SIZE := by
  induction s using chunk_induction with
  | base => exact absurd rfl h
  | step s hne ih =>
    rw [chunks_cons_eq s hne]
    by_cases hd : s.drop CHUNK_SIZE = []
    · rw [hd, chunks_nil]
      have h1 : 0 < s.length := List.length_pos.mpr hne
      have h2 : s.length ≤ CHUNK_SIZE := by
        have h3 := congrArg List.length hd
        simp only [List.length_drop, List.length_nil] at h3
        omega
      refine ⟨s.take CHUNK_SIZE, rfl, ?_⟩
      simp only [List.length_take]
      simp only [CHUNK_SIZE] at *
      split <;> omega
    · rcases ih hd with ⟨c, hc1, hc2⟩
      have hcn : chunks CHUNK_SIZE (s.drop CHUNK_SIZE) ≠ [] :=
        (chunks_eq_nil_iff _).not.mpr hd
      refine ⟨c, ?_, ?_⟩
      · rcases List.exists_cons_of_ne_nil hcn with ⟨a, l, hal⟩
        rw [hal]
        rw [hal] at hc1
        exact List.getLast?_cons_cons.trans hc1
      · have h2 : CHUNK_SIZE < s.length := by
          have h3 := List.length_pos.mpr hd
          simp only [List.length_drop] at h3
          omega
        simp only [List.length_drop] at hc2
        rw [hc2]
        simp only [CHUNK_SIZE] at *
        have h4 : (s.length - 5242880) % 5242880 = s.length % 5242880 := by
          omega
        rw [h4]

/-! ### Unfolding and characterisation of `putLoop` -/

theorem putLoop_nil (bucket key : String)
    (upload : Nat → List Nat → Except String String) (idx : Nat)
    (parts : List (String × Nat)) :
    putLoop bucket key upload [] idx parts = ([S3Event.readSrc 0], Except.ok parts) := by
  rw [putLoop]
  simp

theorem putLoop_cons_eq (bucket key : String)
    (upload : Nat → List Nat → Except String String) (s : List Nat) (idx : Nat)
    (parts : List (String × Nat)) (h : s ≠ []) :
    putLoop bucket key upload s idx parts =
      match upload idx (s.take CHUNK_SIZE) with
      | Except.error e =>
          ([S3Event.readSrc (s.take CHUNK_SIZE).length,
            S3Event.uploadPart bucket key idx CHUNK_SIZE (s.take CHUNK_SIZE)],
           Except.error e)
      | Except.ok tag =>
          let rest := putLoop bucket key upload (s.drop CHUNK_SIZE) (idx + 1)
            (parts ++ [(tag, idx)])
          (S3Event.readSrc (s.take CHUNK_SIZE).length ::
             S3Event.uploadPart bucket key idx CHUNK_SIZE (s.take CHUNK_SIZE) :: rest.1,
           rest.2) := by
  rw [putLoop]
  simp [h]

/-- The event list of a fully successful read/upload loop on `s` starting at
part number `idx`. -/
def okEvents (bucket key : String) (s : List Nat) (idx : Nat) : List S3Event :=
  if h : s = [] then [S3Event.readSrc 0]
  else
    S3Event.readSrc (s.take CHUNK_SIZE).length ::
      S3Event.uploadPart bucket key idx CHUNK_SIZE (s.take CHUNK_SIZE) ::
      okEvents bucket key (s.drop CHUNK_SIZE) (idx + 1)
termination_by s.length
decreasing_by
  simp only [List.length_drop]
  have h1 : 0 < s.length := List.length_pos.mpr h
  simp only [CHUNK_SIZE]
  omega

/-- The `(ETag, PartNumber)` list accumulated by a fully successful loop on
`s` starting at part number `idx`, when `client.upload_part` returns
`etag pn body` for part `pn` with body `body`. -/
def okParts (etag : Nat → List Nat → String) (s : List Nat) (idx : Nat) :
    List (String × Nat) :=
  if h : s = [] then []
  else (etag idx (s.take CHUNK_SIZE), idx) :: okParts etag (s.drop CHUNK_SIZE) (idx + 1)
termination_by s.length
decreasing_by
  simp only [List.length_drop]
  have h1 : 0 < s.length := List.length_pos.mpr h
  simp only [CHUNK_SIZE]
  omega

theorem okEvents_nil (bucket key : String) (idx : Nat) :
    okEvents bucket key [] idx = [S3Event.readSrc 0] := by
  rw [okEvents]
  simp

theorem okEvents_cons_eq (bucket key : String) (s : List Nat) (idx : Nat) (h : s ≠ []) :
    okEvents bucket key s idx =
      S3Event.readSrc (s.take CHUNK_SIZE).length ::
        S3Event.uploadPart bucket key idx CHUNK_SIZE (s.take CHUNK_SIZE) ::
        okEvents bucket key (s.drop CHUNK_SIZE) (idx + 1) := by
  rw [okEvents]
  simp [h]

theorem okParts_nil (etag : Nat → List Nat → String) (idx : Nat) :
    okParts etag [] idx = [] := by
  rw [okParts]
  simp

theorem okParts_cons_eq (etag : Nat → List Nat → String) (s : List Nat) (idx : Nat)
    (h : s ≠ []) :
    okParts etag s idx =
      (etag idx (s.take CHUNK_SIZE), idx) :: okParts etag (s.drop CHUNK_SIZE) (idx + 1) := by
  rw [okParts]
  simp [h]

/-- With an upload function that never fails, the loop succeeds and its
events and accumulated parts are `okEvents` / `okParts`. -/
theorem putLoop_ok (bucket key : String) (etag : Nat → List Nat → String) :
    ∀ s idx parts,
      putLoop bucket key (fun i c => Except.ok (etag i c)) s idx parts =
        (okEvents bucket key s idx, Except.ok (parts ++ okParts etag s idx)) := by
  have main : ∀ s : List Nat, ∀ idx parts,
      putLoop bucket key (fun i c => Except.ok (etag i c)) s idx parts =
        (okEvents bucket key s idx, Except.ok (parts ++ okParts etag s idx)) := by
    intro s
    induction s using chunk_induction with
    | base =>
      intro idx parts
      rw [putLoop_nil, okEvents_nil, okParts_nil, List.append_nil]
    | step s h ih =>
      intro idx parts
      rw [putLoop_cons_eq bucket key _ s idx parts h]
      simp only
      rw [ih (idx + 1) (parts ++ [(etag idx (s.take CHUNK_SIZE), idx)])]
      rw [okEvents_cons_eq bucket key s idx h, okParts_cons_eq etag s idx h]
      simp
  exact main

/-- `okParts` explicitly: the chunks of `s` enumerated from `idx`, each sent
through the etag function. -/
theorem okParts_eq_enum (etag : Nat → List Nat → String) :
    ∀ s idx, okParts etag s idx =
      (List.enumFrom idx (chunks CHUNK_SIZE s)).map fun p => (etag p.1 p.2, p.1) := by
  intro s
  induction s using chunk_induction with
  | base =>
    intro idx
    rw [okParts_nil, chunks_nil]
    simp
  | step s h ih =>
    intro idx
    rw [okParts_cons_eq etag s idx h, chunks_cons_eq s h, List.enumFrom_cons, List.map_cons,
      ih (idx + 1)]

/-- The uploads recorded in `okEvents` are exactly the chunks of `s`
enumerated from `idx`. -/
theorem uploadsOf_okEvents (bucket key : String) :
    ∀ s idx, uploadsOf (okEvents bucket key s idx) =
      List.enumFrom idx (chunks CHUNK_SIZE s) := by
  intro s
  induction s using chunk_induction with
  | base =>
    intro idx
    rw [okEvents_nil, chunks_nil]
    simp [uploadsOf]
  | step s h ih =>
    intro idx
    rw [okEvents_cons_eq bucket key s idx h, chunks_cons_eq s h, List.enumFrom_cons]
    simp only [uploadsOf, List.filterMap_cons] at *
    rw [ih (idx + 1)]

/-- Every event of `okEvents` is a source read or an upload for this bucket
and key, with declared content length `CHUNK_SIZE` and part number at least
`idx`. -/
theorem okEvents_shape (bucket key : String) :
    ∀ s idx e, e ∈ okEvents bucket key s idx →
      (∃ n, e = S3Event.readSrc n) ∨
      (∃ pn body, e = S3Event.uploadPart bucket key pn CHUNK_SIZE body ∧ idx ≤ pn) := by
  intro s
  induction s using chunk_induction with
  | base =>
    intro idx e he
    rw [okEvents_nil] at he
    rcases List.mem_singleton.mp he with rfl
    exact Or.inl ⟨0, rfl⟩
  | step s h ih =>
    intro idx e he
    rw [okEvents_cons_eq bucket key s idx h] at he
    rcases List.mem_cons.mp he with rfl | he
    · exact Or.inl ⟨_, rfl⟩
    rcases List.mem_cons.mp he with rfl | he
    · exact Or.inr ⟨idx, s.take CHUNK_SIZE, rfl, Nat.le_refl idx⟩
    · rcases ih (idx + 1) e he with h1 | ⟨pn, body, h2, h3⟩
      · exact Or.inl h1
      · exact Or.inr ⟨pn, body, h2, by omega⟩

/-! ### Generic list helpers -/

theorem findSome?_append_of_none {α β : Type} (f : α → Option β) (l1 l2 : List α)
    (h : ∀ x ∈ l1, f x = none) :
    (l1 ++ l2).findSome? f = l2.findSome? f := by
  rw [List.findSome?_append, List.findSome?_eq_none_iff.mpr h, Option.none_or]

theorem findSome?_of_unique {α β : Type} (f : α → Option β) (v : β) :
    ∀ l : List α, (∃ x ∈ l, f x = some v) →
      (∀ x ∈ l, f x = none ∨ f x = some v) → l.findSome? f = some v := by
  intro l
  induction l with
  | nil => rintro ⟨x, hx, _⟩ _; exact absurd hx (List.not_mem_nil x)
  | cons a l ih =>
    rintro ⟨x, hx, hfx⟩ huniq
    rw [List.findSome?_cons]
    rcases huniq a (List.mem_cons_self a l) with ha | ha
    · rw [ha]
      rcases List.mem_cons.mp hx with rfl | hx
      · exact absurd hfx (by rw [ha]; exact Option.noConfusion)
      · exact ih ⟨x, hx, hfx⟩ fun y hy => huniq y (List.mem_cons_of_mem a hy)
    · rw [ha]

theorem mapM_eq_some_map {α β : Type} (f : α → Option β) (g : α → β) :
    ∀ l : List α, (∀ a ∈ l, f a = some (g a)) → l.mapM f = some (l.map g) := by
  intro l
  induction l with
  | nil => intro _; rfl
  | cons a l ih =>
    intro h
    rw [← List.mapM'_eq_mapM] at *
    simp only [mapM', h a (List.mem_cons_self a l),
      ih fun x hx => h x (List.mem_cons_of_mem a hx)]
    rfl

/-! ### The full trace of a successful `put` -/

/-- The event trace of a `put` whose every part upload succeeds with the
etags given by `etag`. -/
def putOkTrace (backup : BackupTask) (filename : String)
    (etag : Nat → List Nat → String) (s : List Nat) : List S3Event :=
  (put backup filename (fun i c => Except.ok (etag i c)) s).1

theorem put_ok_eq (backup : BackupTask) (filename : String)
    (etag : Nat → List Nat → String) (s : List Nat) :
    put backup filename (fun i c => Except.ok (etag i c)) s =
      (S3Event.createMultipart backup.attributes.bucket (s3Key backup filename) ::
         (okEvents backup.attributes.bucket (s3Key backup filename) s 1 ++
          [S3Event.completeMultipart backup.attributes.bucket (s3Key backup filename)
            (okParts etag s 1)]),
       Except.ok ()) := by
  simp only [put]
  rw [putLoop_ok]
  simp

theorem putOkTrace_eq (backup : BackupTask) (filename : String)
    (etag : Nat → List Nat → String) (s : List Nat) :
    putOkTrace backup filename etag s =
      S3Event.createMultipart backup.attributes.bucket (s3Key backup filename) ::
        (okEvents backup.attributes.bucket (s3Key backup filename) s 1 ++
         [S3Event.completeMultipart backup.attributes.bucket (s3Key backup filename)
           (okParts etag s 1)]) := by
  unfold putOkTrace
  rw [put_ok_eq]

theorem completionOf_putOk (backup : BackupTask) (filename : String)
    (etag : Nat → List Nat → String) (s : List Nat) :
    completionOf (putOkTrace backup filename etag s) backup.attributes.bucket
      (s3Key backup filename) = some (okParts etag s 1) := by
  rw [putOkTrace_eq]
  unfold completionOf
  rw [List.findSome?_cons]
  simp only
  rw [findSome?_append_of_none]
  · simp [List.findSome?_cons]
  · intro x hx
    rcases okEvents_shape _ _ s 1 x hx with ⟨n, rfl⟩ | ⟨pn, body, rfl, _⟩ <;> rfl

theorem uploadsOf_putOk (backup : BackupTask) (filename : String)
    (etag : Nat → List Nat → String) (s : List Nat) :
    uploadsOf (putOkTrace backup filename etag s) =
      List.enumFrom 1 (chunks CHUNK_SIZE s) := by
  rw [putOkTrace_eq]
  simp only [uploadsOf, List.filterMap_cons, List.filterMap_append, List.filterMap_nil,
    List.append_nil]
  exact uploadsOf_okEvents _ _ s 1

/-- Looking up any part number that the successful `put` uploaded returns the
corresponding chunk. -/
theorem partBody_putOk (backup : BackupTask) (filename : String)
    (etag : Nat → List Nat → String) (s : List Nat) (i : Nat) (c : List Nat)
    (hm : (i, c) ∈ List.enumFrom 1 (chunks CHUNK_SIZE s)) :
    partBody (putOkTrace backup filename etag s) backup.attributes.bucket
      (s3Key backup filename) i = some c := by
  have hmem : (i, c) ∈ uploadsOf (okEvents backup.attributes.bucket
      (s3Key backup filename) s 1) := by
    rw [uploadsOf_okEvents]; exact hm
  rcases List.mem_filterMap.mp hmem with ⟨e, he, hfe⟩
  rcases okEvents_shape _ _ s 1 e he with ⟨n, rfl⟩ | ⟨pn, body, rfl, hpn⟩
  · exact absurd hfe (by simp)
  · simp only [Option.some.injEq, Prod.mk.injEq] at hfe
    rcases hfe with ⟨rfl, rfl⟩
    unfold partBody
    apply findSome?_of_unique
    · refine ⟨S3Event.uploadPart backup.attributes.bucket (s3Key backup filename)
        pn CHUNK_SIZE body, ?_, ?_⟩
      · rw [List.mem_reverse, putOkTrace_eq]
        exact List.mem_cons_of_mem _ (List.mem_append_left _ he)
      · simp [isUploadFor]
    · intro x hx
      rw [List.mem_reverse, putOkTrace_eq] at hx
      rcases List.mem_cons.mp hx with rfl | hx
      · exact Or.inl rfl
      rcases List.mem_append.mp hx with hx | hx
      · rcases okEvents_shape _ _ s 1 x hx with ⟨n, rfl⟩ | ⟨pn', body', rfl, hpn'⟩
        · exact Or.inl rfl
        · by_cases hi : pn' = pn
          · subst hi
            have hmem' : (pn', body') ∈ List.enumFrom 1 (chunks CHUNK_SIZE s) := by
              rw [← uploadsOf_okEvents backup.attributes.bucket (s3Key backup filename)]
              exact List.mem_filterMap.mpr ⟨_, hx, rfl⟩
            have h1 := List.mem_enumFrom hm
            have h2 := List.mem_enumFrom hmem'
            have hbc : body' = body := by
              rw [h2.2.2, h1.2.2]
            subst hbc
            exact Or.inr (by simp [isUploadFor])
          · exact Or.inl (by simp [isUploadFor, hi])
      · rcases List.mem_singleton.mp hx with rfl
        exact Or.inl rfl

/-- After a fully successful `put` of the stream `s`, the object store holds
exactly `s` at the bucket and key `put` used. -/
theorem storedObject_putOk (backup : BackupTask) (filename : String)
    (etag : Nat → List Nat → String) (s : List Nat) :
    storedObject (putOkTrace backup filename etag s) backup.attributes.bucket
      (s3Key backup filename) = some s := by
  rw [storedObject, completionOf_putOk]
  rw [Option.some_bind]
  rw [okParts_eq_enum]
  have hcs : ∀ p ∈ (List.enumFrom 1 (chunks CHUNK_SIZE s)).map
      (fun q => (etag q.1 q.2, q.1)),
      partBody (putOkTrace backup filename etag s) backup.attributes.bucket
          (s3Key backup filename) p.2
        = some ((chunks CHUNK_SIZE s).getD (p.2 - 1) []) := by
    intro p hp
    rcases List.mem_map.mp hp with ⟨q, hq, rfl⟩
    rcases q with ⟨qi, qc⟩
    have h1 := List.mem_enumFrom hq
    simp only
    have hgetD : (chunks CHUNK_SIZE s).getD (qi - 1) [] = qc := by
      rw [List.getD_eq_getElem _ _ (by omega)]
      exact h1.2.2.symm
    rw [hgetD]
    exact partBody_putOk backup filename etag s qi qc hq
  rw [mapM_eq_some_map _
    (fun p => (chunks CHUNK_SIZE s).getD (p.2 - 1) []) _ hcs]
  have hmaps : ((List.enumFrom 1 (chunks CHUNK_SIZE s)).map
      (fun q => (etag q.1 q.2, q.1))).map
        (fun p => (chunks CHUNK_SIZE s).getD (p.2 - 1) []) = chunks CHUNK_SIZE s := by
    rw [List.map_map]
    have hcong : ∀ q ∈ List.enumFrom 1 (chunks CHUNK_SIZE s),
        ((fun p : String × Nat => (chunks CHUNK_SIZE s).getD (p.2 - 1) []) ∘
          fun q => (etag q.1 q.2, q.1)) q = Prod.snd q := by
      intro q hq
      rcases q with ⟨qi, qc⟩
      have h1 := List.mem_enumFrom hq
      simp only [Function.comp]
      rw [List.getD_eq_getElem _ _ (by omega)]
      exact h1.2.2.symm
    rw [List.map_congr_left hcong, List.enumFrom_map_snd]
  rw [Option.map_some', hmaps, chunks_flatten]

/-! ### Shape of arbitrary (possibly failing) `put` runs -/

/-- Every event the loop emits, under any upload behaviour, is a source read
or an upload for this bucket and key with declared content length
`CHUNK_SIZE` and part number at least `idx`. -/
theorem putLoop_shape (bucket key : String)
    (upload : Nat → List Nat → Except String String) :
    ∀ s idx parts e, e ∈ (putLoop bucket key upload s idx parts).1 →
      (∃ n, e = S3Event.readSrc n) ∨
      (∃ pn body, e = S3Event.uploadPart bucket key pn CHUNK_SIZE body ∧ idx ≤ pn) := by
  intro s
  induction s using chunk_induction with
  | base =>
    intro idx parts e he
    rw [putLoop_nil] at he
    rcases List.mem_singleton.mp he with rfl
    exact Or.inl ⟨0, rfl⟩
  | step s h ih =>
    intro idx parts e he
    rw [putLoop_cons_eq bucket key upload s idx parts h] at he
    rcases hup : upload idx (s.take CHUNK_SIZE) with err | tag
    · rw [hup] at he
      simp only at he
      rcases List.mem_cons.mp he with rfl | he
      · exact Or.inl ⟨_, rfl⟩
      rcases List.mem_singleton.mp he with rfl
      exact Or.inr ⟨idx, _, rfl, Nat.le_refl idx⟩
    · rw [hup] at he
      simp only at he
      rcases List.mem_cons.mp he with rfl | he
      · exact Or.inl ⟨_, rfl⟩
      rcases List.mem_cons.mp he with rfl | he
      · exact Or.inr ⟨idx, _, rfl, Nat.le_refl idx⟩
      · rcases ih (idx + 1) (parts ++ [(tag, idx)]) e he with h1 | ⟨pn, body, h2, h3⟩
        · exact Or.inl h1
        · exact Or.inr ⟨pn, body, h2, by omega⟩

/-- When the loop fails, the failing upload is the last event, no later part
was attempted, and the parts uploaded are exactly `idx, idx+1, ..., m`. -/
theorem putLoop_error (bucket key : String)
    (upload : Nat → List Nat → Except String String) :
    ∀ s idx parts evs e,
      putLoop bucket key upload s idx parts = (evs, Except.error e) →
      ∃ m chunk, idx ≤ m ∧ upload m chunk = Except.error e ∧
        evs.getLast? = some (S3Event.uploadPart bucket key m CHUNK_SIZE chunk) ∧
        (uploadsOf evs).map Prod.fst = List.range' idx (m + 1 - idx) := by
  intro s
  induction s using chunk_induction with
  | base =>
    intro idx parts evs e h
    rw [putLoop_nil] at h
    exact absurd (congrArg Prod.snd h) (by simp)
  | step s hne ih =>
    intro idx parts evs e h
    rw [putLoop_cons_eq bucket key upload s idx parts hne] at h
    rcases hup : upload idx (s.take CHUNK_SIZE) with err | tag
    · rw [hup] at h
      simp only [Prod.mk.injEq] at h
      rcases h with ⟨hevs, herr⟩
      subst hevs
      have herr2 : err = e := by
        injection herr
      subst herr2
      refine ⟨idx, s.take CHUNK_SIZE, Nat.le_refl idx, hup, by simp, ?_⟩
      have h1 : idx + 1 - idx = 1 := by omega
      rw [h1]
      simp [uploadsOf, List.range'_one]
    · rw [hup] at h
      simp only at h
      rcases hsplit : putLoop bucket key upload (s.drop CHUNK_SIZE) (idx + 1)
        (parts ++ [(tag, idx)]) with ⟨evs2, res2⟩
      rw [hsplit] at h
      simp only [Prod.mk.injEq] at h
      rcases h with ⟨hevs, hres⟩
      subst hevs
      subst hres
      rcases ih (idx + 1) (parts ++ [(tag, idx)]) evs2 e hsplit with
        ⟨m, chunk, hm1, hm2, hm3, hm4⟩
      refine ⟨m, chunk, by omega, hm2, ?_, ?_⟩
      · have hne2 : evs2 ≠ [] := by
          intro hnil
          rw [hnil] at hm3
          simp at hm3
        rcases List.exists_cons_of_ne_nil hne2 with ⟨a, l, rfl⟩
        rw [List.getLast?_cons_cons, List.getLast?_cons_cons]
        exact hm3
      · simp only [uploadsOf, List.filterMap_cons] at hm4 ⊢
        simp only [List.map_cons, hm4]
        have h2 : m + 1 - idx = (m + 1 - (idx + 1)) + 1 := by omega
        rw [h2, List.range'_succ]

/-- The event trace of any `put` run: the multipart creation first, the loop
events, and the completion exactly when the loop succeeded. -/
theorem put_trace_eq (backup : BackupTask) (filename : String)
    (upload : Nat → List Nat → Except String String) (s : List Nat) :
    (put backup filename upload s).1 =
      S3Event.createMultipart backup.attributes.bucket (s3Key backup filename) ::
        ((putLoop backup.attributes.bucket (s3Key backup filename) upload s 1 []).1 ++
         match (putLoop backup.attributes.bucket (s3Key backup filename) upload s 1 []).2 with
         | Except.error _ => []
         | Except.ok parts =>
             [S3Event.completeMultipart backup.attributes.bucket (s3Key backup filename)
               parts]) := by
  simp only [put]
  rcases hres : (putLoop backup.attributes.bucket (s3Key backup filename) upload s 1 []).2
    with err | parts <;> simp [hres]

/-! ### Concrete fixtures for witnesses -/

def backup0 : BackupTask :=
  { id := 1, path := "/mnt/tank/data", credentialId := 7,
    attributes := { bucket := "bkt", folder := none, region := none } }

def cred0 : CloudCredential :=
  { id := 7, provider := "AMAZON", access_key := "AK", secret_key := "SK" }

def credOther : CloudCredential :=
  { id := 7, provider := "AZURE", access_key := "AK", secret_key := "SK" }

def etag0 : Nat → List Nat → String := fun _ _ => "e1"

theorem take_chunk_single : ([0] : List Nat).take CHUNK_SIZE = [0] :=
  List.take_of_length_le (by simp [CHUNK_SIZE])

theorem drop_chunk_single : ([0] : List Nat).drop CHUNK_SIZE = [] :=
  List.drop_eq_nil_of_le (by simp [CHUNK_SIZE])

theorem chunks_single : chunks CHUNK_SIZE [0] = [[0]] := by
  rw [chunks_cons_eq [0] (by simp), take_chunk_single, drop_chunk_single, chunks_nil]

theorem s3Key_backup0 (filename : String) : s3Key backup0 filename = filename := by
  simp [s3Key, backup0, pyOrEmpty, osPathJoin]

theorem putOkTrace_single :
    putOkTrace backup0 "file" etag0 [0] =
      [S3Event.createMultipart "bkt" "file",
       S3Event.readSrc 1,
       S3Event.uploadPart "bkt" "file" 1 CHUNK_SIZE [0],
       S3Event.readSrc 0,
       S3Event.completeMultipart "bkt" "file" [("e1", 1)]] := by
  rw [putOkTrace_eq, s3Key_backup0]
  rw [okEvents_cons_eq _ _ [0] 1 (by simp), okParts_cons_eq _ [0] 1 (by simp)]
  rw [take_chunk_single, drop_chunk_single, okEvents_nil, okParts_nil]
  simp [backup0, etag0]

theorem putLoop_single_error :
    putLoop "bkt" "file" (fun _ _ => Except.error "boom") [0] 1 [] =
      ([S3Event.readSrc 1, S3Event.uploadPart "bkt" "file" 1 CHUNK_SIZE [0]],
       Except.error "boom") := by
  rw [putLoop_cons_eq _ _ _ [0] 1 [] (by simp)]
  simp [take_chunk_single]

theorem put_single_error :
    put backup0 "file" (fun _ _ => Except.error "boom") [0] =
      ([S3Event.createMultipart "bkt" "file", S3Event.readSrc 1,
        S3Event.uploadPart "bkt" "file" 1 CHUNK_SIZE [0]],
       Except.error "boom") := by
  simp only [put, s3Key_backup0]
  rw [show backup0.attributes.bucket = "bkt" from rfl, putLoop_single_error]

/-! ### The claims -/

/-- Claim C1: for every source stream of length `L` uploaded by `put` with
chunk size `C = CHUNK_SIZE = 5 MiB` (and every etag behaviour of the store),
the loop uploads exactly `ceil(L/C)` parts; every part body except possibly
the last has length `C` and the last has length `L mod C` (or `C` when
`L mod C = 0`); the recorded part numbers are exactly `1..n`, strictly
increasing and contiguous with no gaps (`range' 1 n`), and the completion
call presents its parts in that ascending order (`range' 1 n` again). -/
theorem C1_put_chunking (backup : BackupTask) (filename : String)
    (etag : Nat → List Nat → String) (s : List Nat) :
    (uploadsOf (putOkTrace backup filename etag s)).map Prod.fst
        = List.range' 1 ((s.length + CHUNK_SIZE - 1) / CHUNK_SIZE) ∧
    (bodiesOf (putOkTrace backup filename etag s)).length
        = (s.length + CHUNK_SIZE - 1) / CHUNK_SIZE ∧
    (∀ c ∈ (bodiesOf (putOkTrace backup filename etag s)).dropLast,
        c.length = CHUNK_SIZE) ∧
    (∀ c, (bodiesOf (putOkTrace backup filename etag s)).getLast? = some c →
        c.length = if s.length % CHUNK_SIZE = 0 then CHUNK_SIZE
          else s.length % CHUNK_SIZE) ∧
    (completionOf (putOkTrace backup filename etag s) backup.attributes.bucket
        (s3Key backup filename)).map (List.map Prod.snd)
        = some (List.range' 1 ((s.length + CHUNK_SIZE - 1) / CHUNK_SIZE)) := by
  have hb : bodiesOf (putOkTrace backup filename etag s) = chunks CHUNK_SIZE s := by
    unfold bodiesOf
    rw [uploadsOf_putOk, List.enumFrom_map_snd]
  refine ⟨?_, ?_, ?_, ?_, ?_⟩
  · rw [uploadsOf_putOk, List.enumFrom_map_fst, chunks_length]
  · rw [hb, chunks_length]
  · rw [hb]
    exact chunks_dropLast_length s
  · intro c hc
    rw [hb] at hc
    by_cases hs : s = []
    · subst hs
      rw [chunks_nil] at hc
      simp at hc
    · rcases chunks_getLast_length s hs with ⟨c2, hc1, hc2⟩
      rw [hc] at hc1
      rcases Option.some.injEq _ _ ▸ hc1 with rfl
      exact hc2
  · rw [completionOf_putOk, okParts_eq_enum, Option.map_some', List.map_map]
    rw [show (Prod.snd ∘ fun q : Nat × List Nat => (etag q.1 q.2, q.1)) = Prod.fst
      from rfl]
    rw [List.enumFrom_map_fst, chunks_length]

theorem C1_put_chunking_witness :
    ∃ c : List Nat,
      c.length = if ([0] : List Nat).length % CHUNK_SIZE = 0 then CHUNK_SIZE
        else ([0] : List Nat).length % CHUNK_SIZE := by
  refine ⟨[0], (C1_put_chunking backup0 "file" etag0 [0]).2.2.2.1 [0] ?_⟩
  have hb : bodiesOf (putOkTrace backup0 "file" etag0 [0]) = chunks CHUNK_SIZE [0] := by
    unfold bodiesOf
    rw [uploadsOf_putOk, List.enumFrom_map_snd]
  rw [hb, chunks_single]
  rfl

/-- Claim C2: `put` of a stream `s` followed by `get` of the same filename
under the same task writes content byte-identical to `s` to the destination:
the `get` succeeds, the concatenation of the chunks it writes is exactly `s`
(this holds for every stream, in particular lengths 0, 1, `CHUNK_SIZE` and
`2*CHUNK_SIZE + 1`), and both operations address the same bucket and the same
key computed by `s3Key` from the task's folder and the filename. -/
theorem C2_put_get_round_trip (backup : BackupTask) (filename : String)
    (etag : Nat → List Nat → String) (s : List Nat) :
    ∃ ws : List (List Nat),
      (BackupS3Service.get backup filename
          (storedObject (put backup filename (fun i c => Except.ok (etag i c)) s).1)).2
        = Except.ok ws ∧
      ws.flatten = s ∧
      (BackupS3Service.get backup filename
          (storedObject (put backup filename (fun i c => Except.ok (etag i c)) s).1)).1
        = [S3Event.getObject backup.attributes.bucket (s3Key backup filename)] := by
  have hst : storedObject (put backup filename (fun i c => Except.ok (etag i c)) s).1
      backup.attributes.bucket (s3Key backup filename) = some s :=
    storedObject_putOk backup filename etag s
  refine ⟨chunks CHUNK_SIZE s, ?_, chunks_flatten s, ?_⟩
  · simp only [BackupS3Service.get]
    rw [hst]
  · simp only [BackupS3Service.get]
    rw [hst]

/-- Claim C10: `put` on an empty source stream (the first read returns zero
bytes) still creates the multipart session, and creates it before the first
read; it uploads zero parts and completes the session with an empty part
list; the trace contains exactly one creation and one completion call. -/
theorem C10_empty_stream (backup : BackupTask) (filename : String)
    (upload : Nat → List Nat → Except String String) :
    put backup filename upload [] =
      ([S3Event.createMultipart backup.attributes.bucket (s3Key backup filename),
        S3Event.readSrc 0,
        S3Event.completeMultipart backup.attributes.bucket (s3Key backup filename) []],
       Except.ok ()) ∧
    uploadsOf (put backup filename upload []).1 = [] ∧
    completionOf (put backup filename upload []).1 backup.attributes.bucket
      (s3Key backup filename) = some [] := by
  have hmain : put backup filename upload [] =
      ([S3Event.createMultipart backup.attributes.bucket (s3Key backup filename),
        S3Event.readSrc 0,
        S3Event.completeMultipart backup.attributes.bucket (s3Key backup filename) []],
       Except.ok ()) := by
    simp only [put]
    rw [putLoop_nil]
    simp
  refine ⟨hmain, ?_, ?_⟩
  · rw [hmain]
    simp [uploadsOf]
  · rw [hmain]
    simp [completionOf, List.findSome?_cons]

/-- Claim C9: in every execution of `put` (any upload behaviour, any
stream), every `upload_part` call declares `ContentLength = CHUNK_SIZE`
(5 MiB), a constant — even when the chunk body actually passed is shorter;
concretely, putting the 1-byte stream `[0]` issues an upload whose declared
content length is `CHUNK_SIZE` while its body has length 1. -/
theorem C9_content_length_constant (backup : BackupTask) (filename : String)
    (upload : Nat → List Nat → Except String String) (s : List Nat) :
    (∀ b k pn cl body,
        S3Event.uploadPart b k pn cl body ∈ (put backup filename upload s).1 →
          cl = CHUNK_SIZE) ∧
    ∃ pn body, S3Event.uploadPart "bkt" "file" pn CHUNK_SIZE body
        ∈ putOkTrace backup0 "file" etag0 [0] ∧
      body.length = 1 ∧ body.length ≠ CHUNK_SIZE := by
  constructor
  · intro b k pn cl body hmem
    rw [put_trace_eq] at hmem
    rcases List.mem_cons.mp hmem with heq | hmem
    · exact absurd heq (by simp)
    rcases List.mem_append.mp hmem with hmem | hmem
    · rcases putLoop_shape _ _ upload s 1 [] _ hmem with ⟨n, heq⟩ | ⟨pn2, body2, heq, _⟩
      · exact absurd heq (by simp)
      · simp only [S3Event.uploadPart.injEq] at heq
        exact heq.2.2.2.1
    · rcases hres : (putLoop backup.attributes.bucket (s3Key backup filename)
        upload s 1 []).2 with err | parts
      · rw [hres] at hmem
        simp at hmem
      · rw [hres] at hmem
        rcases List.mem_singleton.mp hmem with heq
        exact absurd heq (by simp)
  · refine ⟨1, [0], ?_, rfl, by simp [CHUNK_SIZE]⟩
    rw [putOkTrace_single]
    simp

theorem C9_content_length_constant_witness : CHUNK_SIZE = CHUNK_SIZE :=
  (C9_content_length_constant backup0 "file" (fun i c => Except.ok (etag0 i c)) [0]).1
    "bkt" "file" 1 CHUNK_SIZE [0]
    (by rw [show (put backup0 "file" (fun i c => Except.ok (etag0 i c)) [0]).1
          = putOkTrace backup0 "file" etag0 [0] from rfl, putOkTrace_single]
        simp)

/-- Claim C5: when some chunk upload fails during `put`, the error
propagates to the caller (hypothesis `h`), `complete_multipart_upload` is
never called for the session, no compensating abort is issued (the session
is left dangling), and no further part is uploaded after the failing one:
the failing upload is the last event of the trace and the uploaded part
numbers are exactly `1..m` with the failing part `m` last. -/
theorem C5_failed_upload_dangling (backup : BackupTask) (filename : String)
    (upload : Nat → List Nat → Except String String) (s : List Nat) (e : String)
    (h : (put backup filename upload s).2 = Except.error e) :
    (∀ b k ps, S3Event.completeMultipart b k ps ∉ (put backup filename upload s).1) ∧
    (∀ b k, S3Event.abortMultipart b k ∉ (put backup filename upload s).1) ∧
    ∃ m chunk, upload m chunk = Except.error e ∧
      (put backup filename upload s).1.getLast? =
        some (S3Event.uploadPart backup.attributes.bucket (s3Key backup filename) m
          CHUNK_SIZE chunk) ∧
      (uploadsOf (put backup filename upload s).1).map Prod.fst = List.range' 1 m := by
  rcases hsplit : putLoop backup.attributes.bucket (s3Key backup filename) upload s 1 []
    with ⟨evs, res⟩
  have hres2 : res = Except.error e := by
    simp only [put, hsplit] at h
    rcases res with err | parts
    · simpa using h
    · simp at h
  subst hres2
  have htr : (put backup filename upload s).1 =
      S3Event.createMultipart backup.attributes.bucket (s3Key backup filename) :: evs := by
    rw [put_trace_eq, hsplit]
    simp
  rcases putLoop_error backup.attributes.bucket (s3Key backup filename) upload s 1 []
    evs e hsplit with ⟨m, chunk, hm1, hm2, hm3, hm4⟩
  have hshape : ∀ x ∈ evs, (∃ n, x = S3Event.readSrc n) ∨
      ∃ pn body, x = S3Event.uploadPart backup.attributes.bucket
        (s3Key backup filename) pn CHUNK_SIZE body ∧ 1 ≤ pn := by
    intro x hx
    apply putLoop_shape backup.attributes.bucket (s3Key backup filename) upload s 1 []
    rw [hsplit]
    exact hx
  refine ⟨?_, ?_, m, chunk, hm2, ?_, ?_⟩
  · intro b k ps hmem
    rw [htr] at hmem
    rcases List.mem_cons.mp hmem with heq | hmem
    · exact absurd heq (by simp)
    · rcases hshape _ hmem with ⟨n, heq⟩ | ⟨pn, body, heq, _⟩ <;> simp at heq
  · intro b k hmem
    rw [htr] at hmem
    rcases List.mem_cons.mp hmem with heq | hmem
    · exact absurd heq (by simp)
    · rcases hshape _ hmem with ⟨n, heq⟩ | ⟨pn, body, heq, _⟩ <;> simp at heq
  · rw [htr]
    have hne : evs ≠ [] := by
      intro hnil
      rw [hnil] at hm3
      simp at hm3
    rcases List.exists_cons_of_ne_nil hne with ⟨a, l, rfl⟩
    rw [List.getLast?_cons_cons]
    exact hm3
  · rw [htr]
    simp only [uploadsOf, List.filterMap_cons] at hm4 ⊢
    have h1 : m + 1 - 1 = m := by omega
    rw [h1] at hm4
    exact hm4

theorem C5_failed_upload_dangling_witness :
    S3Event.completeMultipart "bkt" "file" [] ∉
      (put backup0 "file" (fun _ _ => Except.error "boom") [0]).1 :=
  (C5_failed_upload_dangling backup0 "file" (fun _ _ => Except.error "boom") [0]
    "boom" (by rw [put_single_error])).1 "bkt" "file" []

/-- Claim C3: for every line of the external process's error stream, if the
line matches the `Transferred: <value>` pattern, the captured value
(stripped) is published as the progress message iff it is not purely
numeric; the line `"Transferred: 42%"` publishes `"42%"` and the line
`"Transferred: 1048576"` publishes nothing (also with the trailing newline
`readline` leaves in place); a non-matching line publishes nothing. -/
theorem C3_progress_line (line : String) :
    (∀ grp, searchTransferred line.toList = some grp →
        check_progress_line line =
          if pyIsDigit (pyStrip (String.mk grp)) then none
          else some (pyStrip (String.mk grp))) ∧
    (searchTransferred line.toList = none → check_progress_line line = none) ∧
    check_progress_line "Transferred: 42%" = some "42%" ∧
    check_progress_line "Transferred: 1048576" = none ∧
    check_progress_line "Transferred: 42%\n" = some "42%" ∧
    check_progress_line "Transferred: 1048576\n" = none := by
  refine ⟨?_, ?_, ?_, ?_, ?_, ?_⟩
  · intro grp h
    unfold check_progress_line
    rw [h]
  · intro h
    unfold check_progress_line
    rw [h]
  · decide
  · decide
  · decide
  · decide

theorem C3_progress_line_witness :
    check_progress_line "Transferred:      3 Bytes (96 Bytes/s)" = some "3 Bytes (96 Bytes/s)" := by
  have h := (C3_progress_line "Transferred:      3 Bytes (96 Bytes/s)").1
    "      3 Bytes (96 Bytes/s)".toList (by decide)
  rw [h]
  decide

/-- Claim C4: for every task whose resolved credential has a provider other
than the supported `'AMAZON'`, `sync` fails with an error identifying the
offending provider value, and the only effects performed are the two
read-only datastore queries — no object-store call, no temporary file, no
subprocess. -/
theorem C4_unsupported_provider (tasks : Nat → Option BackupTask)
    (creds : Nat → Option CloudCredential) (tmpname : String) (returncode : Int)
    (stderr : String) (i : Nat) (backup : BackupTask) (credential : CloudCredential)
    (h1 : tasks i = some backup) (h2 : creds backup.credentialId = some credential)
    (h3 : credential.provider ≠ "AMAZON") :
    backup_sync tasks creds tmpname returncode stderr i =
      ([Effect.datastoreQuery "tasks.cloudsync" i,
        Effect.datastoreQuery "system.cloudcredentials" backup.credentialId],
       Except.error (SyncError.unsupportedProvider credential.provider)) ∧
    ∀ ef ∈ (backup_sync tasks creds tmpname returncode stderr i).1,
      ∃ table recordId, ef = Effect.datastoreQuery table recordId := by
  have hmain : backup_sync tasks creds tmpname returncode stderr i =
      ([Effect.datastoreQuery "tasks.cloudsync" i,
        Effect.datastoreQuery "system.cloudcredentials" backup.credentialId],
       Except.error (SyncError.unsupportedProvider credential.provider)) := by
    unfold backup_sync
    rw [h1]
    simp only
    rw [h2]
    simp [h3]
  refine ⟨hmain, ?_⟩
  intro ef hef
  rw [hmain] at hef
  rcases List.mem_cons.mp hef with rfl | hef
  · exact ⟨_, _, rfl⟩
  rcases List.mem_singleton.mp hef with rfl
  exact ⟨_, _, rfl⟩

theorem C4_unsupported_provider_witness :
    backup_sync (fun _ => some backup0) (fun _ => some credOther) "/tmp/cfg" 0 "" 1 =
      ([Effect.datastoreQuery "tasks.cloudsync" 1,
        Effect.datastoreQuery "system.cloudcredentials" 7],
       Except.error (SyncError.unsupportedProvider "AZURE")) :=
  (C4_unsupported_provider (fun _ => some backup0) (fun _ => some credOther)
    "/tmp/cfg" 0 "" 1 backup0 credOther rfl rfl (by decide)).1

/-- Claim C7: for an id with no backup task, `sync` fails with the
unknown-id error and the only effect is the single task-table query — no
credential lookup, no network call; for a task whose credential reference
does not resolve, it fails with the credential-not-found error after the
task lookup but before any provider dispatch (only the two queries); both
errors are returned to the caller unchanged. -/
theorem C7_lookup_failures (tasks : Nat → Option BackupTask)
    (creds : Nat → Option CloudCredential) (tmpname : String) (returncode : Int)
    (stderr : String) (i : Nat) :
    (tasks i = none →
      backup_sync tasks creds tmpname returncode stderr i =
        ([Effect.datastoreQuery "tasks.cloudsync" i],
         Except.error SyncError.unknownId)) ∧
    (∀ backup, tasks i = some backup → creds backup.credentialId = none →
      backup_sync tasks creds tmpname returncode stderr i =
        ([Effect.datastoreQuery "tasks.cloudsync" i,
          Effect.datastoreQuery "system.cloudcredentials" backup.credentialId],
         Except.error SyncError.credentialNotFound)) := by
  constructor
  · intro h
    unfold backup_sync
    rw [h]
  · intro backup h1 h2
    unfold backup_sync
    rw [h1]
    simp only
    rw [h2]

theorem C7_lookup_failures_witness :
    backup_sync (fun _ => none) (fun _ => none) "/tmp/cfg" 0 "" 5 =
      ([Effect.datastoreQuery "tasks.cloudsync" 5],
       Except.error SyncError.unknownId) ∧
    backup_sync (fun _ => some backup0) (fun _ => none) "/tmp/cfg" 0 "" 1 =
      ([Effect.datastoreQuery "tasks.cloudsync" 1,
        Effect.datastoreQuery "system.cloudcredentials" 7],
       Except.error SyncError.credentialNotFound) :=
  ⟨(C7_lookup_failures (fun _ => none) (fun _ => none) "/tmp/cfg" 0 "" 5).1 rfl,
   (C7_lookup_failures (fun _ => some backup0) (fun _ => none) "/tmp/cfg" 0 "" 1).2
     backup0 rfl rfl⟩

/-- Claim C8: for every run of the external sync process, a nonzero exit
code makes the tree sync fail with the sync-failed error carrying the
captured error-stream content, and exit code zero makes it return success
(`true`). -/
theorem C8_exit_code (backup : BackupTask) (credential : CloudCredential)
    (tmpname stderr : String) :
    (∀ returncode : Int, returncode ≠ 0 →
      (backup_s3_sync backup credential tmpname returncode stderr).2 =
        Except.error (SyncError.syncFailed ("rclone failed: " ++ stderr))) ∧
    (backup_s3_sync backup credential tmpname 0 stderr).2 = Except.ok true := by
  constructor
  · intro returncode h
    simp [backup_s3_sync, h]
  · simp [backup_s3_sync]

theorem C8_exit_code_witness :
    (backup_s3_sync backup0 cred0 "/tmp/cfg" 1 "boom").2 =
      Except.error (SyncError.syncFailed ("rclone failed: " ++ "boom")) :=
  (C8_exit_code backup0 cred0 "/tmp/cfg" "boom").1 1 (by decide)

/-- Claim C6: in every execution of the tree sync, the temporary
configuration file is restricted to owner-only read/write (`0o600`) before
any sensitive content is written to it (`ownerOnlyBeforeWrites`: every
`fileWrite` happens while the mode is exactly `0o600`), and the file is
never group- or world-readable at any point between its creation and its
deletion (`secureModes`), whatever mode the checker starts from. -/
theorem C6_config_file_permissions (backup : BackupTask)
    (credential : CloudCredential) (tmpname : String) (returncode : Int)
    (stderr : String) (mode : Nat) :
    secureModes mode (backup_s3_sync backup credential tmpname returncode stderr).1
      = true ∧
    ownerOnlyBeforeWrites mode
      (backup_s3_sync backup credential tmpname returncode stderr).1 = true := by
  constructor
  · simp only [backup_s3_sync, secureModes, stepMode, groupOrWorldReadable]
    decide
  · simp [backup_s3_sync, ownerOnlyBeforeWrites, stepMode]
